/-
Verification of the shielded-note lifecycle engine of the Solana Shadow SDK.

The development shallowly embeds the TypeScript sources:
 - the `NoteManager` note store and nullifier tracking (note-manager module),
 - the commitment / nullifier derivations of `NoteManager`, `ShadowClient`
   and `SolanaPrivacyClient`,
 - the `EncryptedNoteStorage` save / load pipeline,
 - the relayer's `/relay-withdraw` request handler,
 - `ShadowClient.withdraw` spend-state tracking,
 - the Withdraw instruction encoders,
 - `GhostPrivacySDK.getRingMembers` ring padding.

External collaborators (the Poseidon and sha256 hashes, the AEAD cipher,
the key-derivation function, JSON serialization, the Solana RPC and the
prover) are modelled as parameters; theorems that need their contracts
take those contracts as explicit hypotheses, discharged concretely in the
witnesses.
-/
import Mathlib

namespace ShadowSdk

/-! ## JavaScript `Map` model

JS `Map` objects with string keys preserve insertion order; `set` on an
existing key overwrites in place.  We model them as association lists. -/

def mapGet {α : Type} (m : List (String × α)) (k : String) : Option α :=
  match m.find? (fun e => decide (e.1 = k)) with
  | some e => some e.2
  | none => none

def mapHas {α : Type} (m : List (String × α)) (k : String) : Bool :=
  (mapGet m k).isSome

def mapSet {α : Type} (m : List (String × α)) (k : String) (v : α) : List (String × α) :=
  match m with
  | [] => [(k, v)]
  | e :: rest => if e.1 = k then (k, v) :: rest else e :: mapSet rest k v

theorem mapGet_mapSet_self {α : Type} (m : List (String × α)) (k : String) (v : α) :
    mapGet (mapSet m k v) k = some v := by
  induction m with
  | nil => simp [mapSet, mapGet]
  | cons e rest ih =>
    by_cases h : e.1 = k
    · simp [mapSet, h, mapGet]
    · simp only [mapSet, if_neg h]
      simpa [mapGet, List.find?, h] using ih

theorem mapGet_mapSet_ne {α : Type} (m : List (String × α)) (k k2 : String) (v : α)
    (h : k2 ≠ k) : mapGet (mapSet m k v) k2 = mapGet m k2 := by
  have hk : k ≠ k2 := Ne.symm h
  induction m with
  | nil => simp [mapSet, mapGet, List.find?, hk]
  | cons e rest ih =>
    by_cases he : e.1 = k
    · subst he
      simp [mapSet, mapGet, List.find?, hk]
    · simp only [mapSet, if_neg he]
      by_cases he2 : e.1 = k2
      · simp [mapGet, List.find?, he2]
      · simpa [mapGet, List.find?, he2] using ih

theorem mapHas_mapSet_self {α : Type} (m : List (String × α)) (k : String) (v : α) :
    mapHas (mapSet m k v) k = true := by
  simp [mapHas, mapGet_mapSet_self]

/-! ## NoteManager (note-manager module)

State of a `NoteManager`: the commitment-keyed note map and the
nullifier-keyed map of used nullifiers. -/

structure ShieldedNote where
  commitment : String
  nullifier : String
  amount : Nat
  secret : String
  owner : String
  spent : Bool
  createdAt : Nat
  txSignature : Option String
  deriving Repr, DecidableEq

structure NullifierEntry where
  nullifier : String
  usedAt : Nat
  txSignature : String
  deriving Repr, DecidableEq

structure NoteManagerState where
  notes : List (String × ShieldedNote)
  nullifiers : List (String × NullifierEntry)
  deriving Repr, DecidableEq

def initialState : NoteManagerState := ⟨[], []⟩

/-- JS truthiness of the optional `txSignature` field: `undefined` and the
empty string are falsy. -/
def optTruthy : Option String → Bool
  | none => false
  | some s => decide (s ≠ "")

/-- Embedding of `NoteManager.isNullifierUsed`. -/
def isNullifierUsed (s : NoteManagerState) (nullifier : String) : Bool :=
  mapHas s.nullifiers nullifier

/-- Embedding of `NoteManager.createNote`.  The randomly drawn secret and
the Poseidon-derived commitment and nullifier strings are supplied by the
caller (they are produced by external primitives); the method stores the
fresh unspent note under its commitment. -/
def createNote (s : NoteManagerState) (amount : Nat) (owner : String)
    (txSignature : Option String) (commitment nullifier secret : String) (now : Nat) :
    ShieldedNote × NoteManagerState :=
  let note : ShieldedNote :=
    ⟨commitment, nullifier, amount, secret, owner, false, now, txSignature⟩
  (note, { s with notes := mapSet s.notes commitment note })

/-- Embedding of `NoteManager.spendNote`: returns `false` (and leaves the
state untouched) when the note is missing, already spent, or its nullifier
is already recorded; otherwise marks the note spent and records its
nullifier. -/
def spendNote (s : NoteManagerState) (commitment txSignature : String) (now : Nat) :
    Bool × NoteManagerState :=
  match mapGet s.notes commitment with
  | none => (false, s)
  | some note =>
    if note.spent = true then (false, s)
    else if isNullifierUsed s note.nullifier = true then (false, s)
    else
      (true,
        { notes := mapSet s.notes commitment { note with spent := true },
          nullifiers := mapSet s.nullifiers note.nullifier
            ⟨note.nullifier, now, txSignature⟩ })

/-- Condition under which `getBalance` and `getUnspentNotes` count a note:
owner matches, not spent, and the note carries a (truthy) transaction
signature. -/
def countsFor (owner : String) (note : ShieldedNote) : Bool :=
  decide (note.owner = owner) && !note.spent && optTruthy note.txSignature

def noteValues (s : NoteManagerState) : List ShieldedNote :=
  s.notes.map (fun e => e.2)

/-- Embedding of `NoteManager.getUnspentNotes`: iterates the note map in
insertion order, pushing the matching notes. -/
def getUnspentNotes (s : NoteManagerState) (owner : String) : List ShieldedNote :=
  (noteValues s).foldl
    (fun acc note => if countsFor owner note then acc ++ [note] else acc) []

/-- Embedding of `NoteManager.getBalance`: iterates the note map, summing
the amounts of the matching notes. -/
def getBalance (s : NoteManagerState) (owner : String) : Nat :=
  (noteValues s).foldl
    (fun total note => if countsFor owner note then total + note.amount else total) 0

/-- Statement of the balance invariant in the claim's words: the sum of
the amounts of exactly those stored notes whose owner matches, whose spent
flag is false, and which carry a transaction signature. -/
def balanceSpec (s : NoteManagerState) (owner : String) : Nat :=
  (((noteValues s).filter (fun note => countsFor owner note)).map
    (fun note => note.amount)).sum

/-- Operations that reach `NoteManager` states: `createNote` and
`spendNote` with their externally produced arguments. -/
inductive NMOp where
  | create (amount : Nat) (owner : String) (txSignature : Option String)
      (commitment nullifier secret : String) (now : Nat)
  | spend (commitment txSignature : String) (now : Nat)

def applyOp (s : NoteManagerState) (op : NMOp) : NoteManagerState :=
  match op with
  | .create a o tx c n sec t => (createNote s a o tx c n sec t).2
  | .spend c tx t => (spendNote s c tx t).2

def runOps (ops : List NMOp) : NoteManagerState :=
  ops.foldl applyOp initialState

theorem getBalance_foldl (l : List ShieldedNote) (owner : String) (init : Nat) :
    l.foldl
      (fun total note => if countsFor owner note then total + note.amount else total) init
      = init + ((l.filter (fun note => countsFor owner note)).map
          (fun note => note.amount)).sum := by
  induction l generalizing init with
  | nil => simp
  | cons note rest ih =>
    by_cases h : countsFor owner note
    · simp [h, ih, Nat.add_assoc]
    · simp [h, ih]

/-- C1: for every note held by the NoteManager, marking it spent succeeds at
most once: a first `spendNote` call on an unspent note whose nullifier is not
yet recorded succeeds, marks the note spent and records its nullifier; any
second attempt on the same note, and any attempt on a note whose nullifier is
already recorded, fails with a `false` result and leaves the note map and the
nullifier map unchanged. -/
theorem spendNote_at_most_once
    (s : NoteManagerState) (c tx : String) (now : Nat) (note : ShieldedNote)
    (hfound : mapGet s.notes c = some note)
    (hunspent : note.spent = false)
    (hfresh : isNullifierUsed s note.nullifier = false) :
    (spendNote s c tx now).1 = true
    ∧ mapGet (spendNote s c tx now).2.notes c = some { note with spent := true }
    ∧ isNullifierUsed (spendNote s c tx now).2 note.nullifier = true
    ∧ (∀ tx2 now2, spendNote (spendNote s c tx now).2 c tx2 now2
        = (false, (spendNote s c tx now).2))
    ∧ (∀ s0 c2 tx2 now2 note2, mapGet s0.notes c2 = some note2 →
        isNullifierUsed s0 note2.nullifier = true →
        spendNote s0 c2 tx2 now2 = (false, s0)) := by
  have hstep : spendNote s c tx now =
      (true, { notes := mapSet s.notes c { note with spent := true },
               nullifiers := mapSet s.nullifiers note.nullifier
                 ⟨note.nullifier, now, tx⟩ }) := by
    simp [spendNote, hfound, hunspent, hfresh]
  refine ⟨by simp [hstep], ?_, ?_, ?_, ?_⟩
  · simp [hstep, mapGet_mapSet_self]
  · simp [hstep, isNullifierUsed, mapHas_mapSet_self]
  · intro tx2 now2
    rw [hstep]
    simp [spendNote, mapGet_mapSet_self]
  · intro s0 c2 tx2 now2 note2 hf hu
    by_cases hsp : note2.spent = true
    · simp [spendNote, hf, hsp]
    · simp [spendNote, hf, hsp, hu]

def c1note : ShieldedNote :=
  ⟨"c1", "n1", 100, "s1", "alice", false, 0, some "tx1"⟩

def c1state : NoteManagerState := ⟨[("c1", c1note)], []⟩

theorem spendNote_at_most_once_witness :
    (spendNote c1state "c1" "tx2" 5).1 = true
    ∧ (∀ tx2 now2, spendNote (spendNote c1state "c1" "tx2" 5).2 "c1" tx2 now2
        = (false, (spendNote c1state "c1" "tx2" 5).2)) := by
  have h := spendNote_at_most_once c1state "c1" "tx2" 5 c1note
    (by decide) (by decide) (by decide)
  exact ⟨h.1, h.2.2.2.1⟩

/-- C6: for every owner and every state reached from the empty NoteManager by
a sequence of `createNote` / `spendNote` operations, `getBalance owner` equals
the sum of the amounts of exactly those stored notes whose owner matches,
whose spent flag is false, and which carry a transaction signature. -/
theorem getBalance_eq_balanceSpec (ops : List NMOp) (owner : String) :
    getBalance (runOps ops) owner = balanceSpec (runOps ops) owner := by
  simpa [getBalance, balanceSpec] using
    getBalance_foldl (noteValues (runOps ops)) owner 0

/-! ## Commitment scheme

The three components deriving commitments and nullifiers.  The Poseidon
hash (circomlibjs) and sha256 are external primitives; the derivations are
embedded over an arbitrary hash `h : List Nat → Nat` (Poseidon applied to a
list of field elements) respectively `sh : String → Nat` (sha256 of a
formatted string).  The hex-string formatting of the outputs is a bijection
and is dropped. -/

/-- Value of the JS expression BigInt of the hex encoding of the ASCII
string `nullifier`, used by `NoteManager.generateNullifier` as the second
Poseidon input. -/
def nullifierTag : Nat := 0x6e756c6c6966696572

/-- Embedding of `NoteManager.generateCommitment`: Poseidon over
`[amount, secret, owner]`. -/
def nmGenerateCommitment (h : List Nat → Nat) (amount secret owner : Nat) : Nat :=
  h [amount, secret, owner]

/-- Embedding of `NoteManager.generateNullifier`: Poseidon over
`[secret, nullifierTag]`; the commitment is not an input. -/
def nmGenerateNullifier (h : List Nat → Nat) (secret : Nat) : Nat :=
  h [secret, nullifierTag]

/-- Commitment / nullifier pair produced for a note by
`NoteManager.createNote` from the drawn secret. -/
structure NMDerived where
  commitment : Nat
  nullifier : Nat
  deriving Repr, DecidableEq

def nmDerive (h : List Nat → Nat) (amount secret owner : Nat) : NMDerived :=
  ⟨nmGenerateCommitment h amount secret owner, nmGenerateNullifier h secret⟩

/-- Embedding of `ShadowClient.generateCommitment`: Poseidon over
`[recipient, amount, nonce]`. -/
def shadowGenerateCommitment (h : List Nat → Nat) (recipient amount nonce : Nat) : Nat :=
  h [recipient, amount, nonce]

/-- Embedding of `ShadowClient.generateNullifier`: Poseidon over
`[commitment, privateKey]`. -/
def shadowGenerateNullifier (h : List Nat → Nat) (commitment privateKey : Nat) : Nat :=
  h [commitment, privateKey]

/-- Embedding of `SolanaPrivacyClient.generateCommitment`: sha256 of the
string `amount:secret`. -/
def cliGenerateCommitment (sh : String → Nat) (amount : Nat) (secret : String) : Nat :=
  sh (toString amount ++ ":" ++ secret)

/-- Embedding of `SolanaPrivacyClient.generateNullifier`: sha256 of the
string `nullifier:secret`; the commitment is not an input. -/
def cliGenerateNullifier (sh : String → Nat) (secret : String) : Nat :=
  sh ("nullifier:" ++ secret)

/-- Modelled from the spec: commitment = Hash(recipientIdentity, amount,
nonce), in that input order. -/
def specCommitment (h : List Nat → Nat) (recipient amount nonce : Nat) : Nat :=
  h [recipient, amount, nonce]

/-- Modelled from the spec: nullifier = Hash(commitment, secret). -/
def specNullifier (h : List Nat → Nat) (commitment secret : Nat) : Nat :=
  h [commitment, secret]

/-- Concrete stand-in hash used by witnesses and counterexamples: an
injective fold of the Cantor-style pairing function over the input list. -/
def hashPair : List Nat → Nat :=
  fun l => l.foldl Nat.pair 0

theorem hashPair_inj2 (a b c d : Nat) (h : hashPair [a, b] = hashPair [c, d]) :
    a = c ∧ b = d := by
  simp only [hashPair, List.foldl] at h
  obtain ⟨h1, h2⟩ := Nat.pair_eq_pair.mp h
  exact ⟨(Nat.pair_eq_pair.mp h1).2, h2⟩

theorem hashPair_inj3 (a b c d e f : Nat)
    (h : hashPair [a, b, c] = hashPair [d, e, f]) : a = d ∧ b = e ∧ c = f := by
  simp only [hashPair, List.foldl] at h
  obtain ⟨h1, h2⟩ := Nat.pair_eq_pair.mp h
  obtain ⟨h3, h4⟩ := Nat.pair_eq_pair.mp h1
  exact ⟨(Nat.pair_eq_pair.mp h3).2, h4, h2⟩

/-- C2 counterexample: two NoteManager notes sharing a secret but differing
in amount have different commitments yet the same nullifier, so the
nullifier is not a function of the (commitment, secret) pair and the
derivation does not take the commitment as an input. -/
theorem nmNullifier_ignores_commitment :
    (nmDerive hashPair 1 5 7).commitment ≠ (nmDerive hashPair 2 5 7).commitment
    ∧ (nmDerive hashPair 1 5 7).nullifier = (nmDerive hashPair 2 5 7).nullifier :=
  ⟨by decide, rfl⟩

/-- C2 (amended): nullifier derivation is deterministic in every component,
so a note always reproduces the same nullifier; `ShadowClient` derives
Hash(commitment, privateKey), taking the commitment as an input exactly as
the spec states; but `NoteManager` (and the Solana CLI client) derive the
nullifier from the secret alone under a fixed tag, so any two notes sharing
a secret share a nullifier regardless of commitment, and distinct nullifiers
are guaranteed (given an injective hash) only for distinct secrets. -/
theorem nullifier_derivations (h : List Nat → Nat)
    (hinj : ∀ a b c d : Nat, h [a, b] = h [c, d] → a = c ∧ b = d) :
    (∀ commitment secret, shadowGenerateNullifier h commitment secret
        = specNullifier h commitment secret)
    ∧ (∀ a1 a2 o1 o2 secret,
        (nmDerive h a1 secret o1).nullifier = (nmDerive h a2 secret o2).nullifier)
    ∧ (∀ s1 s2, s1 ≠ s2 → nmGenerateNullifier h s1 ≠ nmGenerateNullifier h s2) := by
  refine ⟨fun _ _ => rfl, fun _ _ _ _ _ => rfl, ?_⟩
  intro s1 s2 hne heq
  exact hne (hinj _ _ _ _ heq).1

theorem nullifier_derivations_witness :
    nmGenerateNullifier hashPair 1 ≠ nmGenerateNullifier hashPair 2 :=
  (nullifier_derivations hashPair hashPair_inj2).2.2 1 2 (by decide)

/-- C3 counterexample: the NoteManager's commitment is Poseidon over
(amount, secret, owner); reading the owner as the recipient identity and
the secret as the nonce, it disagrees with the spec's
Hash(recipientIdentity, amount, nonce) ordering at concrete inputs. -/
theorem nmCommitment_ordering_mismatch :
    nmGenerateCommitment hashPair 1 5 7 ≠ specCommitment hashPair 7 1 5 := by
  decide

/-- C3 (amended): `ShadowClient.generateCommitment` hashes
(recipient, amount, nonce) in exactly the spec's order, but the commitment
derivations do not agree across components: `NoteManager` hashes
(amount, secret, owner) — for an injective hash this differs from the
spec's ordering whenever amount and owner differ — and the Solana
transaction builder hashes the string `amount:secret`, taking neither a
recipient identity nor a nonce. -/
theorem commitment_derivations (h : List Nat → Nat)
    (hinj3 : ∀ a b c d e f : Nat, h [a, b, c] = h [d, e, f] → a = d ∧ b = e ∧ c = f)
    (amount secret owner : Nat) (hao : amount ≠ owner) :
    (∀ recipient a nonce, shadowGenerateCommitment h recipient a nonce
        = specCommitment h recipient a nonce)
    ∧ nmGenerateCommitment h amount secret owner
        ≠ specCommitment h owner amount secret := by
  refine ⟨fun _ _ _ => rfl, fun heq => ?_⟩
  exact hao (hinj3 _ _ _ _ _ _ heq).1

theorem commitment_derivations_witness :
    nmGenerateCommitment hashPair 2 5 7 ≠ specCommitment hashPair 7 2 5 :=
  (commitment_derivations hashPair hashPair_inj3 2 5 7 (by decide)).2

/-! ## EncryptedNoteStorage

The at-rest encrypted persistence pipeline.  scrypt (`deriveKey`), the
AES-256-GCM cipher (`enc` / `dec`, the auth tag folded into the opaque
ciphertext type `C`, `dec` returning `none` on a tag mismatch) and JSON
serialization (`encodeNotes` / `decodeNotes`) are external primitives and
appear as parameters; their contracts are hypotheses of the theorems. -/

structure EncryptedBlob (C : Type) where
  iv : Nat
  salt : Nat
  data : C
  version : Nat

/-- Error message raised by `EncryptedNoteStorage.loadNotes` on any failure
inside its try block. -/
def decryptionErrorMsg : String :=
  "Failed to decrypt notes. Invalid password or corrupted data."

/-- Embedding of `EncryptedNoteStorage.saveNotes` (via `encrypt`): derive
the key from the password and the freshly drawn salt, encrypt the
serialized note list under the fresh iv, store the blob with version 1. -/
def saveNotes {C : Type} (deriveKey : String → Nat → Nat) (enc : Nat → Nat → String → C)
    (encodeNotes : List ShieldedNote → String)
    (notes : List ShieldedNote) (password : String) (salt iv : Nat) :
    EncryptedBlob C :=
  ⟨iv, salt, enc (deriveKey password salt) iv (encodeNotes notes), 1⟩

/-- Embedding of `EncryptedNoteStorage.loadNotes` (via `decrypt`): with no
storage file it returns the empty list; otherwise it decrypts with the key
derived from the supplied password and parses the plaintext, and any
failure in that try block surfaces as the decryption error. -/
def loadNotes {C : Type} (deriveKey : String → Nat → Nat)
    (dec : Nat → Nat → C → Option String)
    (decodeNotes : String → Option (List ShieldedNote))
    (file : Option (EncryptedBlob C)) (password : String) :
    Except String (List ShieldedNote) :=
  match file with
  | none => .ok []
  | some blob =>
    match dec (deriveKey password blob.salt) blob.iv blob.data with
    | none => .error decryptionErrorMsg
    | some plain =>
      match decodeNotes plain with
      | some notes => .ok notes
      | none => .error decryptionErrorMsg

/-- C4: loading after saving under the same password returns the original
note set; loading under any other password fails with the decryption error
and never returns a wrong-but-parseable note set.  Hypotheses: the cipher
opens its own sealings and rejects sealings under a different key, the key
derivation separates the two passwords at this salt, and serialization
round-trips on this note list. -/
theorem encryptedStore_roundtrip {C : Type}
    (deriveKey : String → Nat → Nat) (enc : Nat → Nat → String → C)
    (dec : Nat → Nat → C → Option String)
    (encodeNotes : List ShieldedNote → String)
    (decodeNotes : String → Option (List ShieldedNote))
    (hgood : ∀ k iv m, dec k iv (enc k iv m) = some m)
    (hauth : ∀ k k2 iv m, k2 ≠ k → dec k2 iv (enc k iv m) = none)
    (notes : List ShieldedNote) (password password2 : String)
    (hjson : decodeNotes (encodeNotes notes) = some notes)
    (salt iv : Nat)
    (hkdf : password2 ≠ password → deriveKey password2 salt ≠ deriveKey password salt) :
    loadNotes deriveKey dec decodeNotes
        (some (saveNotes deriveKey enc encodeNotes notes password salt iv)) password
      = .ok notes
    ∧ (password2 ≠ password →
        loadNotes deriveKey dec decodeNotes
          (some (saveNotes deriveKey enc encodeNotes notes password salt iv)) password2
        = .error decryptionErrorMsg) := by
  constructor
  · simp [loadNotes, saveNotes, hgood, hjson]
  · intro hne
    simp [loadNotes, saveNotes, hauth _ _ _ _ (hkdf hne)]

def wNote : ShieldedNote :=
  ⟨"c9", "n9", 42, "s9", "bob", false, 0, some "tx9"⟩

def wNotes : List ShieldedNote := [wNote]

def wKdf : String → Nat → Nat := fun p _ => if p = "pw" then 0 else 1

def wEnc : Nat → Nat → String → Nat × String := fun k _ m => (k, m)

def wDec : Nat → Nat → Nat × String → Option String :=
  fun k2 _ p => if k2 = p.1 then some p.2 else none

def wEncode : List ShieldedNote → String := fun _ => "serialized"

def wDecode : String → Option (List ShieldedNote) := fun _ => some wNotes

theorem encryptedStore_roundtrip_witness :
    loadNotes wKdf wDec wDecode
        (some (saveNotes wKdf wEnc wEncode wNotes "pw" 3 4)) "pw" = .ok wNotes
    ∧ loadNotes wKdf wDec wDecode
        (some (saveNotes wKdf wEnc wEncode wNotes "pw" 3 4)) "other"
      = .error decryptionErrorMsg := by
  have h := encryptedStore_roundtrip wKdf wEnc wDec wEncode wDecode
    (fun k iv m => by simp [wEnc, wDec])
    (fun k k2 iv m hne => by simp [wEnc, wDec, hne])
    wNotes "pw" "other" rfl 3 4
    (fun hne => by decide)
  exact ⟨h.1, h.2 (by decide)⟩

/-- Embedding of `NoteManager.load` in the encrypted-storage configuration:
on success the note map is rebuilt from the decrypted list and the
nullifier map is reconstructed from the spent confirmed notes; a
`loadNotes` failure is caught inside `load`, only logged, and leaves the
manager in its fresh empty state — the return type shows that no error
escapes to the caller. -/
def nmLoad (loadResult : Except String (List ShieldedNote)) : NoteManagerState :=
  match loadResult with
  | .error _ => initialState
  | .ok notes =>
    { notes := notes.foldl (fun m n => mapSet m n.commitment n) [],
      nullifiers := notes.foldl (fun m n =>
        if n.spent = true ∧ optTruthy n.txSignature = true then
          mapSet m n.nullifier ⟨n.nullifier, n.createdAt, n.txSignature.getD ""⟩
        else m) [] }

/-- C5 (code bug): `NoteManager.load` swallows the decryption failure.
When the blob on disk was saved under a different password, the storage
layer raises the decryption error, but `load` catches it and completes,
leaving the manager with exactly the empty state that the no-file path
produces — the wrong-password run is indistinguishable from an empty
store and no error surfaces. -/
theorem nmLoad_swallows_decryption_error {C : Type}
    (deriveKey : String → Nat → Nat) (enc : Nat → Nat → String → C)
    (dec : Nat → Nat → C → Option String)
    (encodeNotes : List ShieldedNote → String)
    (decodeNotes : String → Option (List ShieldedNote))
    (hauth : ∀ k k2 iv m, k2 ≠ k → dec k2 iv (enc k iv m) = none)
    (notes : List ShieldedNote) (password password2 : String)
    (salt iv : Nat)
    (hkdf : deriveKey password2 salt ≠ deriveKey password salt) :
    nmLoad (loadNotes deriveKey dec decodeNotes
        (some (saveNotes deriveKey enc encodeNotes notes password salt iv)) password2)
      = initialState
    ∧ nmLoad (loadNotes deriveKey dec decodeNotes none password2) = initialState := by
  constructor
  · simp [nmLoad, loadNotes, saveNotes, hauth _ _ _ _ hkdf]
  · simp [nmLoad, loadNotes, initialState]

theorem nmLoad_swallows_decryption_error_witness :
    nmLoad (loadNotes wKdf wDec wDecode
        (some (saveNotes wKdf wEnc wEncode wNotes "pw" 3 4)) "other")
      = initialState := by
  exact (nmLoad_swallows_decryption_error wKdf wEnc wDec wEncode wDecode
    (fun k k2 iv m hne => by simp [wEnc, wDec, hne])
    wNotes "pw" "other" 3 4 (by decide)).1

/-! ## Relayer service (`/relay-withdraw` handler)

The Express handler embedded as a step function.  External effects appear
as oracle inputs: `addressesValid` (the PublicKey parses), `relayerBalance`
(the funding-account query) and `submitResult` (the outcome of
`sendAndConfirmTransaction`).  The `submitted` flag records whether the
handler reached the point of building and submitting the transaction. -/

structure RelayRequest where
  poolAddress : String
  instructionData : String
  recipient : String
  amount : Int
  nullifier : String
  deriving Repr, DecidableEq

structure RelayerState where
  requestQueue : List (String × List Nat)
  processedNullifiers : List String
  deriving Repr, DecidableEq

def MAX_REQUESTS_PER_MINUTE : Nat := 5

def MAX_INSTRUCTION_SIZE : Nat := 10000

def LAMPORTS_PER_SOL : Nat := 1000000000

/-- Embedding of `checkRateLimit`: drops timestamps older than 60 seconds
from the origin's sliding window, rejects without mutating when the window
is full, and otherwise records the request time. -/
def checkRateLimit (q : List (String × List Nat)) (ip : String) (now : Nat) :
    Bool × List (String × List Nat) :=
  let requests := (mapGet q ip).getD []
  let recent := requests.filter (fun t => decide (now - t < 60000))
  if MAX_REQUESTS_PER_MINUTE ≤ recent.length then (false, q)
  else (true, mapSet q ip (recent ++ [now]))

inductive RelayResponse where
  | rateLimited
  | missingParams
  | payloadTooLarge
  | replayDetected
  | invalidAmount
  | invalidAddress
  | underfunded
  | chainFailure (message : String)
  | relayed (signature : String)
  deriving Repr, DecidableEq

structure RelayOutcome where
  response : RelayResponse
  state : RelayerState
  submitted : Bool
  deriving Repr, DecidableEq

/-- Missing-parameter guard of the handler: JS falsiness of the five
request fields (empty strings, and the number 0 for `amount`). -/
def missingParams (req : RelayRequest) : Prop :=
  req.poolAddress = "" ∨ req.instructionData = "" ∨ req.recipient = ""
    ∨ req.amount = 0 ∨ req.nullifier = ""

instance (req : RelayRequest) : Decidable (missingParams req) := by
  unfold missingParams
  infer_instance

/-- Embedding of the `/relay-withdraw` handler, checks in source order:
rate limit, required parameters, payload size, replay guard, amount bound,
address parsing, relayer balance, then transaction submission; the
nullifier is marked processed only after a successful submission, and a
submission failure is answered by the catch-all 500 path. -/
def relayWithdraw (s : RelayerState) (clientIp : String) (req : RelayRequest)
    (now : Nat) (addressesValid : Bool) (relayerBalance : Nat)
    (submitResult : Except String String) : RelayOutcome :=
  match checkRateLimit s.requestQueue clientIp now with
  | (false, _) => ⟨.rateLimited, s, false⟩
  | (true, q2) =>
    let s2 : RelayerState := { s with requestQueue := q2 }
    if missingParams req then
      ⟨.missingParams, s2, false⟩
    else if MAX_INSTRUCTION_SIZE < req.instructionData.length then
      ⟨.payloadTooLarge, s2, false⟩
    else if req.nullifier ∈ s2.processedNullifiers then
      ⟨.replayDetected, s2, false⟩
    else if req.amount < 0 ∨ (1000 * LAMPORTS_PER_SOL : Int) < req.amount then
      ⟨.invalidAmount, s2, false⟩
    else if addressesValid = false then
      ⟨.invalidAddress, s2, false⟩
    else if relayerBalance < 10000000 then
      ⟨.underfunded, s2, false⟩
    else
      match submitResult with
      | .error e => ⟨.chainFailure e, s2, true⟩
      | .ok sig =>
        ⟨.relayed sig,
          { s2 with processedNullifiers := s2.processedNullifiers ++ [req.nullifier] },
          true⟩

/-- C7: a relay request whose nullifier is already in the processed set is
never submitted: no transaction is built or sent, the processed set is
unchanged, and — whenever the earlier rate-limit, parameter and size
checks pass — the response is the replay rejection. -/
theorem relayer_rejects_replay
    (s : RelayerState) (ip : String) (req : RelayRequest) (now : Nat)
    (addressesValid : Bool) (balance : Nat) (submitResult : Except String String)
    (hmem : req.nullifier ∈ s.processedNullifiers) :
    (relayWithdraw s ip req now addressesValid balance submitResult).submitted = false
    ∧ (relayWithdraw s ip req now addressesValid balance
        submitResult).state.processedNullifiers = s.processedNullifiers
    ∧ ((checkRateLimit s.requestQueue ip now).1 = true → ¬missingParams req →
        req.instructionData.length ≤ MAX_INSTRUCTION_SIZE →
        (relayWithdraw s ip req now addressesValid balance submitResult).response
          = .replayDetected) := by
  rcases hrl : checkRateLimit s.requestQueue ip now with ⟨b, q2⟩
  cases b with
  | false =>
    refine ⟨by simp [relayWithdraw, hrl], by simp [relayWithdraw, hrl], ?_⟩
    intro hb
    simp at hb
  | true =>
    by_cases hmp : missingParams req
    · refine ⟨by simp [relayWithdraw, hrl, hmp], by simp [relayWithdraw, hrl, hmp], ?_⟩
      intro _ hmp2
      exact absurd hmp hmp2
    · by_cases hsz : MAX_INSTRUCTION_SIZE < req.instructionData.length
      · refine ⟨by simp [relayWithdraw, hrl, hmp, hsz],
          by simp [relayWithdraw, hrl, hmp, hsz], ?_⟩
        intro _ _ hsz2
        omega
      · exact ⟨by simp [relayWithdraw, hrl, hmp, hsz, hmem],
          by simp [relayWithdraw, hrl, hmp, hsz, hmem],
          fun _ _ _ => by simp [relayWithdraw, hrl, hmp, hsz, hmem]⟩

def c7req : RelayRequest := ⟨"pool", "data", "recip", 5, "null-a"⟩

def c7state : RelayerState := ⟨[], ["null-a"]⟩

theorem relayer_rejects_replay_witness :
    (relayWithdraw c7state "ip" c7req 0 true 20000000 (.ok "sig")).submitted = false
    ∧ (relayWithdraw c7state "ip" c7req 0 true 20000000
        (.ok "sig")).state.processedNullifiers = c7state.processedNullifiers
    ∧ (relayWithdraw c7state "ip" c7req 0 true 20000000 (.ok "sig")).response
        = .replayDetected := by
  have h := relayer_rejects_replay c7state "ip" c7req 0 true 20000000 (.ok "sig")
    (by decide)
  exact ⟨h.1, h.2.1, h.2.2 (by decide) (by decide) (by decide)⟩

/-! ## ShadowClient withdraw spend tracking

State of `ShadowClient` relevant to spending: the unspent-commitment map
(commitment hex key to its amount) and the spent-nullifier set.  The
nullifier derivation, proof generation and transaction submission are
external and appear as parameters / oracle outcomes. -/

structure ClientState where
  commitments : List (String × Nat)
  nullifiers : List String
  deriving Repr, DecidableEq

def mapDelete {α : Type} (m : List (String × α)) (k : String) : List (String × α) :=
  match m with
  | [] => []
  | e :: rest => if e.1 = k then rest else e :: mapDelete rest k

/-- Selection of the note to spend in `ShadowClient.withdraw`: the first
stored commitment whose amount covers the request. -/
def findCommitment (l : List (String × Nat)) (amount : Nat) : Option (String × Nat) :=
  l.find? (fun c => decide (amount ≤ c.2))

/-- Embedding of `ShadowClient.withdraw`: select a commitment, derive its
nullifier, reject a double spend, generate the proof, submit (directly or
via the relayer), and only after a successful submission add the nullifier
to the spent set and delete the commitment.  Any throw from the prover or
the submission propagates before the state is touched. -/
def clientWithdraw (s : ClientState) (amount : Nat) (nullifierOf : String → String)
    (proofResult : Except String Unit) (submitResult : Except String String) :
    Except String String × ClientState :=
  match findCommitment s.commitments amount with
  | none => (.error "Insufficient balance", s)
  | some c =>
    if nullifierOf c.1 ∈ s.nullifiers then (.error "Commitment already spent", s)
    else
      match proofResult with
      | .error e => (.error e, s)
      | .ok _ =>
        match submitResult with
        | .error e => (.error e, s)
        | .ok sig =>
          (.ok sig,
            { commitments := mapDelete s.commitments c.1,
              nullifiers := s.nullifiers ++ [nullifierOf c.1] })

/-- C9: failed proof generation or failed submission leaves the client's
spend-tracking state untouched — the nullifier is added and the commitment
removed only once the submission has succeeded — and the relayer records a
nullifier as processed only after its transaction confirmed, so a failed
relay does not consume the nullifier. -/
theorem withdraw_no_mutation_on_failure
    (s : ClientState) (amount : Nat) (nullifierOf : String → String)
    (c : String × Nat)
    (hc : findCommitment s.commitments amount = some c)
    (hn : nullifierOf c.1 ∉ s.nullifiers) :
    (∀ e submitResult, clientWithdraw s amount nullifierOf (.error e) submitResult
        = (.error e, s))
    ∧ (∀ e, clientWithdraw s amount nullifierOf (.ok ()) (.error e) = (.error e, s))
    ∧ (∀ sig, clientWithdraw s amount nullifierOf (.ok ()) (.ok sig)
        = (.ok sig, ⟨mapDelete s.commitments c.1, s.nullifiers ++ [nullifierOf c.1]⟩))
    ∧ (∀ sr ip req now addrOk balance e,
        (relayWithdraw sr ip req now addrOk balance
          (.error e)).state.processedNullifiers = sr.processedNullifiers) := by
  refine ⟨fun e submitResult => by simp [clientWithdraw, hc, hn],
    fun e => by simp [clientWithdraw, hc, hn],
    fun sig => by simp [clientWithdraw, hc, hn],
    fun sr ip req now addrOk balance e => ?_⟩
  rcases hrl : checkRateLimit sr.requestQueue ip now with ⟨b, q2⟩
  cases b with
  | false => simp [relayWithdraw, hrl]
  | true =>
    by_cases hmp : missingParams req
    · simp [relayWithdraw, hrl, hmp]
    · by_cases hsz : MAX_INSTRUCTION_SIZE < req.instructionData.length
      · simp [relayWithdraw, hrl, hmp, hsz]
      · by_cases hrep : req.nullifier ∈ sr.processedNullifiers
        · simp [relayWithdraw, hrl, hmp, hsz, hrep]
        · by_cases ham : req.amount < 0 ∨ (1000 * LAMPORTS_PER_SOL : Int) < req.amount
          · simp [relayWithdraw, hrl, hmp, hsz, hrep, ham]
          · by_cases haddr : addrOk = false
            · simp [relayWithdraw, hrl, hmp, hsz, hrep, ham, haddr]
            · by_cases hbal : balance < 10000000
              · simp [relayWithdraw, hrl, hmp, hsz, hrep, ham, haddr, hbal]
              · simp [relayWithdraw, hrl, hmp, hsz, hrep, ham, haddr, hbal]

def c9state : ClientState := ⟨[("commit-a", 100)], []⟩

theorem withdraw_no_mutation_on_failure_witness :
    clientWithdraw c9state 50 (fun c => c ++ "-null") (.error "prover down") (.ok "sig")
      = (.error "prover down", c9state)
    ∧ clientWithdraw c9state 50 (fun c => c ++ "-null") (.ok ()) (.error "rpc down")
      = (.error "rpc down", c9state)
    ∧ clientWithdraw c9state 50 (fun c => c ++ "-null") (.ok ()) (.ok "sig")
      = (.ok "sig", ⟨[], ["commit-a-null"]⟩) := by
  have h := withdraw_no_mutation_on_failure c9state 50 (fun c => c ++ "-null")
    ("commit-a", 100) (by decide) (by decide)
  refine ⟨h.1 "prover down" (.ok "sig"), h.2.1 "rpc down", ?_⟩
  have h3 := h.2.2.1 "sig"
  simpa [c9state, mapDelete] using h3

/-! ## Withdraw instruction encoding

Node `Buffer`s embedded as byte lists.  `bufWrite` models `Buffer.set` and
the fixed-width write helpers (replace `src.length` bytes at `offset`);
`writeChunks` models the source pattern of consecutive writes at a running
offset that is advanced by the width of each write. -/

def bufAlloc (n : Nat) : List Nat := List.replicate n 0

def bufWrite (buf : List Nat) (src : List Nat) (offset : Nat) : List Nat :=
  buf.take offset ++ src ++ buf.drop (offset + src.length)

/-- Little-endian byte encoding written by `Buffer.writeUInt32LE`. -/
def u32le (n : Nat) : List Nat :=
  [n % 256, n / 256 % 256, n / 65536 % 256, n / 16777216 % 256]

/-- Little-endian byte encoding written by `Buffer.writeBigUInt64LE`. -/
def u64le (n : Nat) : List Nat :=
  [n % 256, n / 256 % 256, n / 65536 % 256, n / 16777216 % 256,
   n / 4294967296 % 256, n / 1099511627776 % 256,
   n / 281474976710656 % 256, n / 72057594037927936 % 256]

@[simp] theorem u32le_length (n : Nat) : (u32le n).length = 4 := rfl

@[simp] theorem u64le_length (n : Nat) : (u64le n).length = 8 := rfl

def writeChunks (buf : List Nat) (offset : Nat) : List (List Nat) → List Nat
  | [] => buf
  | c :: rest => writeChunks (bufWrite buf c offset) (offset + c.length) rest

theorem bufWrite_fill (P src : List Nat) (m : Nat) :
    bufWrite (P ++ List.replicate m 0) src P.length
      = (P ++ src) ++ List.replicate (m - src.length) 0 := by
  unfold bufWrite
  rw [List.take_left, ← List.drop_drop, List.drop_left,
    List.drop_replicate, List.append_assoc]

theorem writeChunks_fill (chunks : List (List Nat)) (P : List Nat) (m : Nat) :
    writeChunks (P ++ List.replicate m 0) P.length chunks
      = (P ++ chunks.flatten)
        ++ List.replicate (m - (chunks.map List.length).sum) 0 := by
  induction chunks generalizing P m with
  | nil => simp [writeChunks]
  | cons c rest ih =>
    simp only [writeChunks]
    rw [bufWrite_fill]
    have hoff : P.length + c.length = (P ++ c).length := by simp
    rw [hoff, ih (P ++ c) (m - c.length)]
    simp [List.append_assoc, Nat.sub_sub]

/-- Embedding of `ShadowClient.encodeWithdrawInstruction`: allocate the
exact-size buffer, then write at the running offset the discriminant 2,
the u32 proof length, the proof bytes, root, nullifier, the `None` tag
byte for `newCommitment` (this encoder always writes 0), recipient, and
the u64 amount. -/
def encodeWithdrawInstruction (proof root nullifier recipient : List Nat)
    (amount : Nat) : List Nat :=
  writeChunks (bufAlloc (1 + 4 + proof.length + 32 + 32 + 1 + 32 + 8)) 0
    [[2], u32le proof.length, proof, root, nullifier, [0], recipient, u64le amount]

/-- Embedding of the instruction-data assembly in
`SolanaPrivacyClient.withdraw`: the same write sequence with
`newCommitment` present (tag byte 1 followed by its 32 bytes), closed by
the source's `slice(0, offset + 8)`. -/
def cliWithdrawInstructionData (proofBytes root nullifier newCommitment recipient : List Nat)
    (amount : Nat) : List Nat :=
  (writeChunks (bufAlloc (1 + 4 + proofBytes.length + 32 + 32 + 1 + 32 + 32 + 8)) 0
    [[2], u32le proofBytes.length, proofBytes, root, nullifier, [1], newCommitment,
      recipient, u64le amount]).take (134 + proofBytes.length + 8)

/-- Modelled from the spec: Withdraw payload layout — one-byte discriminant
2, the proof as a u32-length-prefixed byte vector, root as 32 bytes,
nullifier as 32 bytes, an Option-encoded newCommitment (one tag byte plus
32 bytes when present), recipient as 32 bytes, amount as a u64, all
multi-byte integers little-endian. -/
def specWithdrawLayout (proof root nullifier : List Nat)
    (newCommitment : Option (List Nat)) (recipient : List Nat) (amount : Nat) :
    List Nat :=
  [2] ++ u32le proof.length ++ proof ++ root ++ nullifier
    ++ (match newCommitment with | none => [0] | some c => [1] ++ c)
    ++ recipient ++ u64le amount

theorem writeChunks_fill_nil (chunks : List (List Nat)) (m : Nat) :
    writeChunks (List.replicate m 0) 0 chunks
      = chunks.flatten ++ List.replicate (m - (chunks.map List.length).sum) 0 := by
  simpa using writeChunks_fill chunks [] m

/-- C8: both Withdraw encoders produce byte-for-byte the spec's layout:
discriminant 2, u32-length-prefixed proof, root, nullifier, Option-encoded
newCommitment (`ShadowClient` always encodes `None`; the Solana builder
encodes `Some` with its change commitment), recipient, and the
little-endian u64 amount. -/
theorem withdraw_encoding_matches_layout
    (proof root nullifier newCommitment recipient : List Nat) (amount : Nat)
    (hr : root.length = 32) (hn : nullifier.length = 32)
    (hc : newCommitment.length = 32) (hrec : recipient.length = 32) :
    encodeWithdrawInstruction proof root nullifier recipient amount
      = specWithdrawLayout proof root nullifier none recipient amount
    ∧ cliWithdrawInstructionData proof root nullifier newCommitment recipient amount
      = specWithdrawLayout proof root nullifier (some newCommitment) recipient amount := by
  constructor
  · unfold encodeWithdrawInstruction bufAlloc
    rw [writeChunks_fill_nil]
    simp [specWithdrawLayout, hr, hn, hrec]
    omega
  · unfold cliWithdrawInstructionData bufAlloc
    rw [writeChunks_fill_nil]
    have hsum : ((([2] :: u32le proof.length :: proof :: root :: nullifier :: [1]
        :: newCommitment :: recipient :: [u64le amount]).map List.length).sum)
        = 1 + 4 + proof.length + 32 + 32 + 1 + 32 + 32 + 8 := by
      simp [hr, hn, hc, hrec]
      omega
    rw [hsum, Nat.sub_self]
    have hflatlen : (([2] :: u32le proof.length :: proof :: root :: nullifier :: [1]
        :: newCommitment :: recipient :: [u64le amount]).flatten).length
        = 134 + proof.length + 8 := by
      simp [hr, hn, hc, hrec]
      omega
    rw [List.replicate_zero, List.append_nil, ← hflatlen, List.take_length]
    simp [specWithdrawLayout, hr, hn, hc, hrec]

theorem withdraw_encoding_matches_layout_witness :
    encodeWithdrawInstruction [9, 9] (List.replicate 32 1) (List.replicate 32 2)
        (List.replicate 32 4) 300
      = specWithdrawLayout [9, 9] (List.replicate 32 1) (List.replicate 32 2) none
        (List.replicate 32 4) 300
    ∧ cliWithdrawInstructionData [9, 9] (List.replicate 32 1) (List.replicate 32 2)
        (List.replicate 32 3) (List.replicate 32 4) 300
      = specWithdrawLayout [9, 9] (List.replicate 32 1) (List.replicate 32 2)
        (some (List.replicate 32 3)) (List.replicate 32 4) 300 :=
  withdraw_encoding_matches_layout [9, 9] (List.replicate 32 1) (List.replicate 32 2)
    (List.replicate 32 3) (List.replicate 32 4) 300 rfl rfl rfl rfl

/-! ## Ring member assembly (`GhostPrivacySDK.getRingMembers`)

The leaf scan and the dummy-padding loop.  The random 32-byte draws of
`crypto.randomBytes(32).toString('hex')` appear as the successive values
of `rng`; each is a 64-character hex string. -/

def ringScanLoop (exclude : String) (count : Nat) :
    List String → List String → List String
  | [], members => members
  | leaf :: rest, members =>
    if members.length < count then
      if leaf ≠ "" ∧ leaf ≠ exclude then
        ringScanLoop exclude count rest (members ++ [leaf])
      else ringScanLoop exclude count rest members
    else members

def padDummies (rng : Nat → String) : Nat → Nat → List String → List String
  | _, 0, members => members
  | idx, need + 1, members => padDummies rng (idx + 1) need (members ++ [rng idx])

/-- Embedding of `GhostPrivacySDK.getRingMembers`: scan the accumulator
leaves in order, collecting nonempty leaves different from the excluded
commitment until `count` entries are held, then pad with freshly sampled
dummy commitments until the list reaches `count`. -/
def getRingMembers (leaves : List String) (exclude : String) (count : Nat)
    (rng : Nat → String) : List String :=
  let members := ringScanLoop exclude count leaves []
  padDummies rng 0 (count - members.length) members

theorem ringScanLoop_le (exclude : String) (count : Nat) (leaves members : List String)
    (h : members.length ≤ count) :
    (ringScanLoop exclude count leaves members).length ≤ count := by
  induction leaves generalizing members with
  | nil => simpa [ringScanLoop] using h
  | cons leaf rest ih =>
    by_cases hlt : members.length < count
    · by_cases hok : leaf ≠ "" ∧ leaf ≠ exclude
      · simp only [ringScanLoop, if_pos hlt, if_pos hok]
        exact ih _ (by simp; omega)
      · simp only [ringScanLoop, if_pos hlt, if_neg hok]
        exact ih _ h
    · simp only [ringScanLoop, if_neg hlt]
      exact h

theorem ringScanLoop_mem (exclude : String) (count : Nat) (leaves members : List String)
    (x : String) (hx : x ∈ ringScanLoop exclude count leaves members) :
    x ∈ members ∨ (x ∈ leaves ∧ x ≠ "" ∧ x ≠ exclude) := by
  induction leaves generalizing members with
  | nil =>
    simp only [ringScanLoop] at hx
    exact .inl hx
  | cons leaf rest ih =>
    by_cases hlt : members.length < count
    · by_cases hok : leaf ≠ "" ∧ leaf ≠ exclude
      · simp only [ringScanLoop, if_pos hlt, if_pos hok] at hx
        rcases ih _ hx with hm | ⟨h1, h2, h3⟩
        · rcases List.mem_append.mp hm with h | h
          · exact .inl h
          · simp only [List.mem_singleton] at h
            subst h
            exact .inr ⟨List.mem_cons_self _ _, hok.1, hok.2⟩
        · exact .inr ⟨List.mem_cons_of_mem _ h1, h2, h3⟩
      · simp only [ringScanLoop, if_pos hlt, if_neg hok] at hx
        rcases ih _ hx with hm | ⟨h1, h2, h3⟩
        · exact .inl hm
        · exact .inr ⟨List.mem_cons_of_mem _ h1, h2, h3⟩
    · simp only [ringScanLoop, if_neg hlt] at hx
      exact .inl hx

theorem padDummies_length (rng : Nat → String) (idx need : Nat) (members : List String) :
    (padDummies rng idx need members).length = members.length + need := by
  induction need generalizing idx members with
  | zero => simp [padDummies]
  | succ n ih =>
    simp only [padDummies]
    rw [ih]
    simp
    omega

theorem padDummies_mem (rng : Nat → String) (idx need : Nat) (members : List String)
    (x : String) (hx : x ∈ padDummies rng idx need members) :
    x ∈ members ∨ ∃ k, x = rng k := by
  induction need generalizing idx members with
  | zero =>
    simp only [padDummies] at hx
    exact .inl hx
  | succ n ih =>
    simp only [padDummies] at hx
    rcases ih _ _ hx with hm | hd
    · rcases List.mem_append.mp hm with h | h
      · exact .inl h
      · simp only [List.mem_singleton] at h
        exact .inr ⟨idx, h⟩
    · exact .inr hd

/-- C10: the assembled ring member list always has exactly the requested
number of entries — when fewer usable real commitments are available the
list is padded with freshly sampled dummies — and, given that the real
leaves and the random draws are 64-character hex strings, every entry
(real or dummy) has that same field-element shape. -/
theorem getRingMembers_exact_size (leaves : List String) (exclude : String)
    (count : Nat) (rng : Nat → String)
    (hleaves : ∀ l ∈ leaves, l.length = 64) (hrng : ∀ k, (rng k).length = 64) :
    (getRingMembers leaves exclude count rng).length = count
    ∧ ∀ x ∈ getRingMembers leaves exclude count rng,
        x.length = 64 ∧ ((x ∈ leaves ∧ x ≠ "" ∧ x ≠ exclude) ∨ ∃ k, x = rng k) := by
  have hscan : (ringScanLoop exclude count leaves []).length ≤ count :=
    ringScanLoop_le exclude count leaves [] (Nat.zero_le count)
  constructor
  · unfold getRingMembers
    rw [padDummies_length]
    omega
  · intro x hx
    unfold getRingMembers at hx
    rcases padDummies_mem _ _ _ _ _ hx with hm | ⟨k, hk⟩
    · rcases ringScanLoop_mem _ _ _ _ _ hm with hnil | ⟨h1, h2, h3⟩
      · simp at hnil
      · exact ⟨hleaves x h1, .inl ⟨h1, h2, h3⟩⟩
    · subst hk
      exact ⟨hrng k, .inr ⟨k, rfl⟩⟩

def w64a : String := String.mk (List.replicate 64 'a')

def w64b : String := String.mk (List.replicate 64 'b')

theorem getRingMembers_exact_size_witness :
    (getRingMembers [w64a] w64a 3 (fun _ => w64b)).length = 3 :=
  (getRingMembers_exact_size [w64a] w64a 3 (fun _ => w64b)
    (by intro l hl; simp at hl; subst hl; decide)
    (fun _ => show w64b.length = 64 by decide)).1

end ShadowSdk
